import Mathlib

/-!
A shallow embedding of `src/common/flatpak-exports.c`: the export table,
the recursive exposer `_exports_path_expose`, the mount-plan generator
`flatpak_exports_append_bwrap_args`, and the visibility oracle
`flatpak_exports_path_is_visible`.

Canonical absolute paths are represented as lists of path components
(e.g. `/a/b` is `["a", "b"]`, `/` is `[]`).  Raw (not yet canonicalized)
paths carry an absolute flag.  The host filesystem is an explicit
parameter bundling the `lstat`/`readlink` primitives the C code consults.
-/

namespace FlatpakExports

/-- The file types distinguished by `lstat` in the C code
(`S_ISDIR`/`S_ISREG`/`S_ISLNK`/`S_ISSOCK`, everything else is `other`). -/
inductive FileType where
  | regular
  | directory
  | symlink
  | socket
  | other
deriving DecidableEq, Repr

/-- The host-filesystem primitives consumed by flatpak-exports.c:
`lstat` (file type of a path, `none` when missing), `readlink`
(`flatpak_resolve_link`: the absolute component list the symlink resolves
to, `none` on failure), and `statIsDir` (`g_file_test (…, G_FILE_TEST_IS_DIR)`,
which follows symlinks; used only for the `host_fs` extra binds). -/
structure HostFS where
  lstat : List String → Option FileType
  readlink : List String → Option (List String)
  statIsDir : List String → Bool

/-- A raw path as handed to the exposer: whether it is absolute
(`g_path_is_absolute`) and its components, which may still contain
`""`, `"."` and `".."` entries. -/
structure RawPath where
  absolute : Bool
  comps : List String
deriving DecidableEq, Repr

/-- `FAKE_MODE_DIR` from the C source. -/
def FAKE_MODE_DIR : Int := -1

/-- `FAKE_MODE_TMPFS` from the C source. -/
def FAKE_MODE_TMPFS : Int := 0

/-- `FLATPAK_FILESYSTEM_MODE_READ_ONLY` (value 1 of the enum, declared in
a header outside src/; the read-only mode sorts below read-write). -/
def FLATPAK_FILESYSTEM_MODE_READ_ONLY : Int := 1

/-- `FLATPAK_FILESYSTEM_MODE_READ_WRITE` (value 2 of the enum). -/
def FLATPAK_FILESYSTEM_MODE_READ_WRITE : Int := 2

/-- `FAKE_MODE_SYMLINK = G_MAXINT`. -/
def FAKE_MODE_SYMLINK : Int := 2147483647

/-- Modelled from the spec: `flatpak_canonicalize_filename` (defined in
flatpak-utils.c, not in src/) collapses `.`, `..` and redundant
separators without resolving the final symlink.  On component lists this
drops `""`/`"."` components and lets `".."` pop the previous component. -/
def canon (cs : List String) : List String :=
  cs.foldl
    (fun acc c =>
      if c = "" ∨ c = "." then acc
      else if c = ".." then acc.dropLast
      else acc ++ [c])
    []

/-- `dont_export_in`: the fixed deny-list of path prefixes. -/
def dont_export_in : List (List String) :=
  [["lib"], ["lib32"], ["lib64"], ["bin"], ["sbin"], ["usr"], ["etc"], ["app"], ["dev"]]

/-- Modelled from the spec: `flatpak_has_path_prefix` (flatpak-utils.c,
not in src/) tests whether one canonical path lies at or below another,
matching whole components only; on component lists this is list prefix. -/
def hasPathPfx (path pfx : List String) : Bool :=
  pfx.isPrefixOf path

/-- The deny-list test of `_exports_path_expose` (lines 410-420). -/
def isDenied (c : List String) : Bool :=
  dont_export_in.any fun d => hasPathPfx c d

/-- The export table: `struct _FlatpakExports`, a map from canonical
path to mode (`hash`, here an association list) plus `host_fs`. -/
structure Exports where
  hash : List (List String × Int)
  host_fs : Int
deriving DecidableEq, Repr

/-- `flatpak_exports_new`: the empty table. -/
def flatpak_exports_new : Exports := ⟨[], 0⟩

/-- Hash-table lookup of a path's mode. -/
def lookupMode (h : List (List String × Int)) (p : List String) : Option Int :=
  (h.find? fun ep => ep.1 == p).map (·.2)

/-- `g_hash_table_replace`: replace the entry for a key, or add it. -/
def replaceEntry : List (List String × Int) → List String → Int → List (List String × Int)
  | [], p, m => [(p, m)]
  | ep :: t, p, m => if ep.1 = p then (p, m) :: t else ep :: replaceEntry t p m

/-- `do_export_path` (lines 353-370): merge-insert a path with
`mode = MAX (old, new)` when the path is already present. -/
def do_export_path (e : Exports) (path : List String) (mode : Int) : Exports :=
  let newMode :=
    match lookupMode e.hash path with
    | some old => max old mode
    | none => mode
  { e with hash := replaceEntry e.hash path newMode }

/-- `path_parent_is_mapped` (lines 118-145): fold over the sorted keys;
a strict-prefix entry with mode `FAKE_MODE_DIR` is skipped, any other
strict-prefix entry overwrites the accumulator with `mode ≠ FAKE_MODE_TMPFS`. -/
def path_parent_is_mapped (eps : List (List String × Int)) (path : List String) : Bool :=
  eps.foldl
    (fun m ep =>
      if hasPathPfx path ep.1 ∧ path ≠ ep.1 then
        if ep.2 = FAKE_MODE_DIR then m
        else decide (ep.2 ≠ FAKE_MODE_TMPFS)
      else m)
    false

/-- `path_is_mapped` (lines 147-176): like `path_parent_is_mapped` but
inclusive of the path itself; a `FAKE_MODE_SYMLINK` entry overwrites the
accumulator with path equality instead. -/
def path_is_mapped (eps : List (List String × Int)) (path : List String) : Bool :=
  eps.foldl
    (fun m ep =>
      if hasPathPfx path ep.1 then
        if ep.2 = FAKE_MODE_DIR then m
        else if ep.2 = FAKE_MODE_SYMLINK then decide (path = ep.1)
        else decide (ep.2 ≠ FAKE_MODE_TMPFS)
      else m)
    false

/-- Lexicographic order on character lists, by codepoint; on UTF-8
strings codepoint order agrees with the byte order `g_strcmp0` uses. -/
def charListLt : List Char → List Char → Bool
  | [], [] => false
  | [], _ :: _ => true
  | _ :: _, [] => false
  | c :: cs, d :: ds => if c = d then charListLt cs ds else decide (c < d)

/-- Strict byte-lexicographic comparison of two path components. -/
def strLtB (a b : String) : Bool :=
  charListLt a.data b.data

/-- Byte-lexicographic comparison of canonical paths, component-wise:
models `g_strcmp0`/`flatpak_strcmp0_ptr` used to sort keys and entries. -/
def pathLe : List String → List String → Bool
  | [], _ => true
  | _ :: _, [] => false
  | a :: as, b :: bs => if a = b then pathLe as bs else strLtB a b

/-- The ordering relation on entries used for sorting. -/
def epLe (x y : List String × Int) : Prop :=
  pathLe x.1 y.1 = true

instance : DecidableRel epLe := fun x y => by
  unfold epLe; infer_instance

/-- The sorted entry list iterated by the plan generator and the sorted
key array handed to the mapped-predicates (lines 218-221, 292): the C
sorts by `g_strcmp0` on the path strings; any sort by byte-lexicographic
path order yields the same list on duplicate-free keys. -/
def sortEps (h : List (List String × Int)) : List (List String × Int) :=
  List.insertionSort epLe h

/-- `never_export_as_symlink` (lines 341-351): `/tmp` only. -/
def never_export_as_symlink (p : List String) : Bool :=
  p == ["tmp"]

/-- One level of `_exports_path_expose` (lines 374-459), parameterized by
the function `recur` used for the self-recursive call at `level + 1`;
`chaseStep` is the symlink-chase loop over the prefixes of the canonical
path (lines 424-455): `pre` is the prefix under inspection, `rest` the
remaining components. -/
def chaseStep (fs : HostFS)
    (recur : Int → RawPath → Nat → Exports → Option (Bool × Exports))
    (mode : Int) :
    List String → List String → Nat → Exports → Option (Bool × Exports)
  | pre, rest, level, exports =>
    if fs.lstat pre = some FileType.symlink ∧ never_export_as_symlink pre = false then
      match fs.readlink pre with
      | none => some (false, exports)
      | some resolved =>
        match recur mode ⟨true, resolved ++ rest⟩ (level + 1) exports with
        | none => none
        | some (true, e2) => some (true, do_export_path e2 pre FAKE_MODE_SYMLINK)
        | some (false, e2) => some (false, e2)
    else
      match rest with
      | [] => some (true, do_export_path exports pre mode)
      | r :: rs => chaseStep fs recur mode (pre ++ [r]) rs level exports

/-- The body of `_exports_path_expose` before the chase loop: depth
guard, absolute check, `lstat`, file-type filter, canonicalization and
deny-list (lines 385-420). -/
def exposeStep (fs : HostFS)
    (recur : Int → RawPath → Nat → Exports → Option (Bool × Exports))
    (mode : Int) (path : RawPath) (level : Nat) (exports : Exports) :
    Option (Bool × Exports) :=
  if level > 40 then some (false, exports)
  else if path.absolute = false then some (false, exports)
  else
    match fs.lstat (canon path.comps) with
    | none => some (false, exports)
    | some t =>
      if t = FileType.directory ∨ t = FileType.regular ∨
          t = FileType.symlink ∨ t = FileType.socket then
        if isDenied (canon path.comps) then some (false, exports)
        else
          match canon path.comps with
          | [] => chaseStep fs recur mode [] [] level exports
          | x :: xs => chaseStep fs recur mode [x] xs level exports
      else some (false, exports)

/-- `_exports_path_expose`, instrumented with explicit fuel: each
self-recursive re-invocation consumes one unit; `none` means the fuel ran
out before the algorithm finished. -/
def exposeFuel (fs : HostFS) : Nat → Int → RawPath → Nat → Exports → Option (Bool × Exports)
  | 0, _, _, _, _ => none
  | fuel + 1, mode, path, level, exports =>
    exposeStep fs (exposeFuel fs fuel) mode path level exports

/-- The public exposer entry points call `_exports_path_expose` at level 0
and ignore its boolean result; fuel 42 always suffices (levels 0..41). -/
def runExpose (fs : HostFS) (mode : Int) (path : RawPath) (e : Exports) : Exports :=
  match exposeFuel fs 42 mode path 0 e with
  | some (_, e2) => e2
  | none => e

/-- `flatpak_exports_add_path_expose`. -/
def flatpak_exports_add_path_expose (fs : HostFS) (mode : Int) (path : RawPath) (e : Exports) : Exports :=
  runExpose fs mode path e

/-- `flatpak_exports_add_path_tmpfs`. -/
def flatpak_exports_add_path_tmpfs (fs : HostFS) (path : RawPath) (e : Exports) : Exports :=
  runExpose fs FAKE_MODE_TMPFS path e

/-- `flatpak_exports_add_path_expose_or_hide`. -/
def flatpak_exports_add_path_expose_or_hide (fs : HostFS) (mode : Int) (path : RawPath) (e : Exports) :
    Exports :=
  if mode = 0 then flatpak_exports_add_path_tmpfs fs path e
  else flatpak_exports_add_path_expose fs mode path e

/-- `flatpak_exports_add_path_dir`. -/
def flatpak_exports_add_path_dir (fs : HostFS) (path : RawPath) (e : Exports) : Exports :=
  runExpose fs FAKE_MODE_DIR path e

/-- `flatpak_exports_add_home_expose`. -/
def flatpak_exports_add_home_expose (mode : Int) (e : Exports) : Exports :=
  { e with host_fs := mode }

/-- The loop of `flatpak_exports_path_is_visible` (lines 304-336) over
the canonical path's components; `recur` is the self-recursive
re-invocation on a symlink-spliced path, `built` the prefix walked so
far, the second list the remaining components. -/
def visLoop (fs : HostFS) (e : Exports) (recur : List String → Option Bool) :
    List String → List String → Option Bool
  | _, [] => some true
  | built, part :: rest =>
    if path_is_mapped (sortEps e.hash) (built ++ [part]) then
      match fs.lstat (built ++ [part]) with
      | none => some false
      | some t =>
        if t = FileType.symlink then
          match fs.readlink (built ++ [part]) with
          | none => some false
          | some resolved => recur (resolved ++ rest)
        else visLoop fs e recur (built ++ [part]) rest
    else
      match rest with
      | [] => some false
      | _ :: _ => visLoop fs e recur (built ++ [part]) rest

/-- `flatpak_exports_path_is_visible`, instrumented with explicit fuel
for its (unbounded, in the C source) self-recursion; `none` means the
fuel ran out before the walk finished. -/
def isVisibleFuel (fs : HostFS) (e : Exports) : Nat → List String → Option Bool
  | 0, _ => none
  | fuel + 1, comps => visLoop fs e (isVisibleFuel fs e fuel) [] (canon comps)

/-- `make_relative` (lines 55-78): one `../` per component of `base`,
then the target's components; represented as (number of ups, components). -/
def make_relative (base : List String) (target : List String) : Nat × List String :=
  (base.length, target)

/-- A mount action emitted by `flatpak_exports_append_bwrap_args`:
`--symlink`, `--tmpfs`, `--dir`, `--ro-bind`/`--bind`. -/
inductive BwrapArg where
  | symlink (relTarget : Nat × List String) (path : List String)
  | tmpfs (path : List String)
  | dir (path : List String)
  | bind (readOnly : Bool) (src : List String) (dest : List String)
deriving DecidableEq, Repr

/-- The per-entry emission of `flatpak_exports_append_bwrap_args`
(lines 223-265). -/
def emitOne (fs : HostFS) (eps : List (List String × Int)) (ep : List String × Int) :
    List BwrapArg :=
  if ep.2 = FAKE_MODE_SYMLINK then
    if path_parent_is_mapped eps ep.1 = false then
      match fs.readlink ep.1 with
      | some resolved => [BwrapArg.symlink (make_relative ep.1.dropLast resolved) ep.1]
      | none => []
    else []
  else if ep.2 = FAKE_MODE_TMPFS then
    if fs.lstat ep.1 = some FileType.directory then
      if path_parent_is_mapped eps ep.1 = false then [BwrapArg.dir ep.1]
      else [BwrapArg.tmpfs ep.1]
    else []
  else if ep.2 = FAKE_MODE_DIR then
    if fs.lstat ep.1 = some FileType.directory then [BwrapArg.dir ep.1] else []
  else
    [BwrapArg.bind (ep.2 = FLATPAK_FILESYSTEM_MODE_READ_ONLY) ep.1 ep.1]

/-- The trailing `host_fs` binds of `/usr` and `/etc` onto
`/run/host/usr` and `/run/host/etc` (lines 267-277). -/
def hostFsArgs (fs : HostFS) (e : Exports) : List BwrapArg :=
  if e.host_fs ≠ 0 then
    (if fs.statIsDir ["usr"] then
      [BwrapArg.bind (e.host_fs = FLATPAK_FILESYSTEM_MODE_READ_ONLY) ["usr"] ["run", "host", "usr"]]
     else []) ++
    (if fs.statIsDir ["etc"] then
      [BwrapArg.bind (e.host_fs = FLATPAK_FILESYSTEM_MODE_READ_ONLY) ["etc"] ["run", "host", "etc"]]
     else [])
  else []

/-- `flatpak_exports_append_bwrap_args` (lines 209-278): sort the
entries, emit each in order, then the `host_fs` binds. -/
def flatpak_exports_append_bwrap_args (fs : HostFS) (e : Exports) : List BwrapArg :=
  let eps := sortEps e.hash
  (eps.map (emitOne fs eps)).flatten ++ hostFsArgs fs e

/-- Predicate A as the spec words it: some entry whose path is a strict
prefix of the candidate has mode other than `Dir` and other than `Tmpfs`. -/
def specPredA (entries : List (List String × Int)) (path : List String) : Bool :=
  entries.any fun ep =>
    hasPathPfx path ep.1 && !(ep.1 == path) &&
      !(ep.2 == FAKE_MODE_DIR) && !(ep.2 == FAKE_MODE_TMPFS)

/-- Predicate B as the spec words it: some entry whose path is a prefix
of (or equal to) the candidate has mode other than `Dir`, a `Symlink`
entry counting only when the paths are exactly equal. -/
def specPredB (entries : List (List String × Int)) (path : List String) : Bool :=
  entries.any fun ep =>
    hasPathPfx path ep.1 && !(ep.2 == FAKE_MODE_DIR) &&
      (!(ep.2 == FAKE_MODE_SYMLINK) || ep.1 == path)

end FlatpakExports

namespace FlatpakExports

/-! ### Basic lemmas about the export table -/

theorem lookupMode_replaceEntry_self :
    ∀ (h : List (List String × Int)) (p : List String) (m : Int),
      lookupMode (replaceEntry h p m) p = some m := by
  intro h p m
  induction h with
  | nil => simp [replaceEntry, lookupMode]
  | cons ep t ih =>
    by_cases hp : ep.1 = p
    · simp [replaceEntry, hp, lookupMode]
    · simp only [replaceEntry, if_neg hp, lookupMode, List.find?]
      have : (ep.1 == p) = false := by simpa using hp
      simp only [this]
      exact ih

theorem lookupMode_replaceEntry_ne :
    ∀ (h : List (List String × Int)) (p q : List String) (m : Int), q ≠ p →
      lookupMode (replaceEntry h p m) q = lookupMode h q := by
  intro h p q m hqp
  induction h with
  | nil =>
    simp only [replaceEntry, lookupMode, List.find?]
    have : (p == q) = false := by simpa using fun h => hqp h.symm
    simp [this]
  | cons ep t ih =>
    by_cases hp : ep.1 = p
    · have h1 : (p == q) = false := by simpa using fun h => hqp h.symm
      have h2 : (ep.1 == q) = false := by simpa [hp] using fun h => hqp h.symm
      simp [replaceEntry, hp, lookupMode, List.find?, h1, h2]
    · simp only [replaceEntry, if_neg hp, lookupMode, List.find?]
      cases hq : (ep.1 == q) with
      | true => simp
      | false => exact ih

theorem lookupMode_do_export_self (e : Exports) (p : List String) (m : Int) :
    lookupMode (do_export_path e p m).hash p =
      some (match lookupMode e.hash p with
            | some old => max old m
            | none => m) := by
  unfold do_export_path
  exact lookupMode_replaceEntry_self e.hash p _

theorem lookupMode_do_export_ne (e : Exports) (p q : List String) (m : Int) (h : q ≠ p) :
    lookupMode (do_export_path e p m).hash q = lookupMode e.hash q := by
  unfold do_export_path
  exact lookupMode_replaceEntry_ne e.hash p q _ h

/-! ### Concrete hosts and tables used by witnesses and counterexamples -/

/-- A host where `/home` is a real directory and nothing is a symlink. -/
def fsHome : HostFS :=
  ⟨fun p => if p = [] ∨ p = ["home"] then some FileType.directory else none,
   fun _ => none, fun _ => false⟩

/-- The raw path `/home`. -/
def homePath : RawPath := ⟨true, ["home"]⟩

/-- A host where every path is a directory. -/
def fsAllDirs : HostFS :=
  ⟨fun _ => some FileType.directory, fun _ => none, fun _ => false⟩

/-! ### The path ordering -/

theorem charListLt_irrefl : ∀ l : List Char, charListLt l l = false := by
  intro l
  induction l with
  | nil => rfl
  | cons c cs ih => simp [charListLt, ih]

theorem charListLt_trans :
    ∀ {a b c : List Char}, charListLt a b = true → charListLt b c = true →
      charListLt a c = true := by
  intro a
  induction a with
  | nil =>
    intro b c h1 h2
    cases b with
    | nil => exact h2
    | cons y ys =>
      cases c with
      | nil => simp [charListLt] at h2
      | cons z zs => rfl
  | cons x xs ih =>
    intro b c h1 h2
    cases b with
    | nil => simp [charListLt] at h1
    | cons y ys =>
      cases c with
      | nil => simp [charListLt] at h2
      | cons z zs =>
        by_cases hxy : x = y <;> by_cases hyz : y = z
        · subst hxy; subst hyz
          simp only [charListLt, if_pos rfl] at h1 h2 ⊢
          exact ih h1 h2
        · subst hxy
          simp only [charListLt, if_pos rfl, if_neg hyz] at h1 h2 ⊢
          exact h2
        · subst hyz
          simp only [charListLt, if_pos rfl, if_neg hxy] at h1 h2 ⊢
          exact h1
        · have hl1 : x < y := by
            have := (by simpa [charListLt, if_neg hxy] using h1 : decide (x < y) = true)
            exact of_decide_eq_true this
          have hl2 : y < z := by
            have := (by simpa [charListLt, if_neg hyz] using h2 : decide (y < z) = true)
            exact of_decide_eq_true this
          have hxz : x < z := lt_trans hl1 hl2
          simp [charListLt, if_neg (ne_of_lt hxz), hxz]

theorem charListLt_total_of_ne :
    ∀ {a b : List Char}, a ≠ b → charListLt a b = true ∨ charListLt b a = true := by
  intro a
  induction a with
  | nil =>
    intro b hne
    cases b with
    | nil => exact absurd rfl hne
    | cons y ys => exact Or.inl rfl
  | cons x xs ih =>
    intro b hne
    cases b with
    | nil => exact Or.inr rfl
    | cons y ys =>
      by_cases hxy : x = y
      · subst hxy
        have hne' : xs ≠ ys := fun hh => hne (by rw [hh])
        rcases ih hne' with h | h
        · exact Or.inl (by simpa [charListLt, if_pos rfl] using h)
        · exact Or.inr (by simpa [charListLt, if_pos rfl] using h)
      · rcases lt_or_gt_of_ne hxy with hlt | hgt
        · exact Or.inl (by simp [charListLt, if_neg hxy, hlt])
        · exact Or.inr (by simp [charListLt, if_neg (Ne.symm hxy), hgt])

theorem strLtB_irrefl (a : String) : strLtB a a = false :=
  charListLt_irrefl a.data

theorem strLtB_trans {a b c : String} (h1 : strLtB a b = true) (h2 : strLtB b c = true) :
    strLtB a c = true :=
  charListLt_trans h1 h2

theorem strLtB_total_of_ne {a b : String} (hne : a ≠ b) :
    strLtB a b = true ∨ strLtB b a = true := by
  have hd : a.data ≠ b.data := by
    intro hh
    apply hne
    cases a
    cases b
    simp only at hh
    rw [hh]
  exact charListLt_total_of_ne hd

theorem pathLe_of_pfx : ∀ {q p : List String}, q <+: p → pathLe q p = true := by
  intro q
  induction q with
  | nil => intro p _; rfl
  | cons a as ih =>
    intro p hq
    cases p with
    | nil => rcases hq with ⟨t, ht⟩; cases ht
    | cons b bs =>
      rcases hq with ⟨t, ht⟩
      injection ht with h1 h2
      subst h1
      simp only [pathLe, if_pos rfl]
      exact ih ⟨t, h2⟩

theorem pathLe_strict : ∀ {q p : List String}, q <+: p → q ≠ p → pathLe p q = false := by
  intro q
  induction q with
  | nil =>
    intro p h hne
    cases p with
    | nil => exact absurd rfl hne
    | cons b bs => rfl
  | cons a as ih =>
    intro p hq hne
    cases p with
    | nil => rcases hq with ⟨t, ht⟩; cases ht
    | cons b bs =>
      rcases hq with ⟨t, ht⟩
      injection ht with h1 h2
      subst h1
      have hne' : as ≠ bs := fun h => hne (by rw [h])
      simp only [pathLe, if_pos rfl]
      exact ih ⟨t, h2⟩ hne'

theorem pathLe_total : ∀ a b : List String, pathLe a b = true ∨ pathLe b a = true := by
  intro a
  induction a with
  | nil => intro b; left; rfl
  | cons x xs ih =>
    intro b
    cases b with
    | nil => right; rfl
    | cons y ys =>
      by_cases hxy : x = y
      · subst hxy
        simp only [pathLe, if_pos rfl]
        exact ih ys
      · rcases strLtB_total_of_ne hxy with hlt | hgt
        · left
          simp only [pathLe, if_neg hxy]
          exact hlt
        · right
          simp only [pathLe, if_neg (Ne.symm hxy)]
          exact hgt

theorem pathLe_trans :
    ∀ a b c : List String, pathLe a b = true → pathLe b c = true → pathLe a c = true := by
  intro a
  induction a with
  | nil => intro b c _ _; rfl
  | cons x xs ih =>
    intro b c h1 h2
    cases b with
    | nil => simp [pathLe] at h1
    | cons y ys =>
      cases c with
      | nil => simp [pathLe] at h2
      | cons z zs =>
        by_cases hxy : x = y <;> by_cases hyz : y = z
        · subst hxy; subst hyz
          simp only [pathLe, if_pos rfl] at h1 h2 ⊢
          exact ih ys zs h1 h2
        · subst hxy
          simp only [pathLe, if_pos rfl, if_neg hyz] at h1 h2 ⊢
          exact h2
        · subst hyz
          simp only [pathLe, if_pos rfl, if_neg hxy] at h1 h2 ⊢
          exact h1
        · have h1' : strLtB x y = true := by simpa [pathLe, if_neg hxy] using h1
          have h2' : strLtB y z = true := by simpa [pathLe, if_neg hyz] using h2
          have hxz : strLtB x z = true := strLtB_trans h1' h2'
          have hne : x ≠ z := by
            intro hh
            subst hh
            exact absurd (strLtB_trans h1' h2') (by simp [strLtB_irrefl])
          simp only [pathLe, if_neg hne]
          exact hxz

instance : IsTotal (List String × Int) epLe :=
  ⟨fun a b => pathLe_total a.1 b.1⟩

instance : IsTrans (List String × Int) epLe :=
  ⟨fun a b c => pathLe_trans a.1 b.1 c.1⟩

theorem sortEps_perm (h : List (List String × Int)) : List.Perm (sortEps h) h :=
  List.perm_insertionSort epLe h

theorem sortEps_sorted (h : List (List String × Int)) : (sortEps h).Pairwise epLe :=
  List.sorted_insertionSort epLe h

/-! ### Last-overwrite folds -/

theorem foldl_overwrite {α : Type} (step : Bool → α → Bool) (rel : α → Bool) (f : α → Bool)
    (hstep : ∀ m x, step m x = if rel x then f x else m) :
    ∀ (l : List α) (init : Bool),
      l.foldl step init = (((l.filter rel).getLast?).map f).getD init := by
  intro l
  induction l with
  | nil => intro init; simp
  | cons x t ih =>
    intro init
    rw [List.foldl_cons, hstep]
    by_cases hx : rel x = true
    · rw [if_pos hx, ih, List.filter_cons_of_pos hx]
      cases hfe : t.filter rel with
      | nil => simp
      | cons a b =>
        obtain ⟨w, hw⟩ := Option.isSome_iff_exists.mp
          (List.getLast?_isSome.mpr (List.cons_ne_nil a b))
        rw [List.getLast?_cons_cons, hw]
        simp
    · rw [if_neg hx, ih, List.filter_cons_of_neg (by simpa using hx)]

theorem getLast?_sorted_max {α : Type} {r : α → α → Prop} :
    ∀ {l : List α}, l.Pairwise r → ∀ {a : α}, l.getLast? = some a →
      ∀ x ∈ l, x = a ∨ r x a := by
  intro l
  induction l with
  | nil => intro _ a h; cases h
  | cons y t ih =>
    intro hp a hl x hx
    cases t with
    | nil =>
      simp only [List.getLast?_singleton, Option.some.injEq] at hl
      subst hl
      simp only [List.mem_singleton] at hx
      exact Or.inl hx
    | cons z zs =>
      rw [List.getLast?_cons_cons] at hl
      rcases List.mem_cons.mp hx with rfl | hx2
      · exact Or.inr ((List.pairwise_cons.mp hp).1 a (List.mem_of_mem_getLast? hl))
      · exact ih hp.of_cons hl x hx2

theorem nodupKeys_eq {l : List (List String × Int)} (h : (l.map Prod.fst).Nodup) :
    ∀ {p : List String} {m₁ m₂ : Int}, (p, m₁) ∈ l → (p, m₂) ∈ l → m₁ = m₂ := by
  induction l with
  | nil => intro p m1 m2 h1; cases h1
  | cons ep t ih =>
    intro p m1 m2 h1 h2
    rw [List.map_cons, List.nodup_cons] at h
    rcases h with ⟨hnotin, hnd⟩
    rcases List.mem_cons.mp h1 with he1 | h1'
    · rcases List.mem_cons.mp h2 with he2 | h2'
      · rw [← he2] at he1
        exact congrArg Prod.snd he1
      · exfalso
        apply hnotin
        have := List.mem_map_of_mem Prod.fst h2'
        rw [← he1]
        simpa using this
    · rcases List.mem_cons.mp h2 with he2 | h2'
      · exfalso
        apply hnotin
        have := List.mem_map_of_mem Prod.fst h1'
        rw [← he2]
        simpa using this
      · exact ih hnd h1' h2'

/-! ### Characterizing the mapped-predicates' folds -/

theorem mapped_fold_char (e : List (List String × Int)) (p : List String)
    (hnd : (e.map Prod.fst).Nodup)
    (step : Bool → (List String × Int) → Bool)
    (rel f : (List String × Int) → Bool)
    (hstep : ∀ m x, step m x = if rel x then f x else m)
    (hrel : ∀ ep, rel ep = true → ep.1 <+: p) :
    (sortEps e).foldl step false = true ↔
      ∃ ep, ep ∈ e ∧ rel ep = true ∧
        (∀ ep', ep' ∈ e → rel ep' = true → ep'.1.length ≤ ep.1.length) ∧
        f ep = true := by
  have hsorted : ((sortEps e).filter rel).Pairwise epLe :=
    List.Pairwise.sublist (List.filter_sublist _) (sortEps_sorted e)
  rw [foldl_overwrite step rel f hstep]
  constructor
  · intro h
    cases hga : ((sortEps e).filter rel).getLast? with
    | none => rw [hga] at h; simp at h
    | some a =>
      rw [hga] at h
      simp at h
      have hmemf : a ∈ (sortEps e).filter rel := List.mem_of_mem_getLast? hga
      have hmem : a ∈ e := (sortEps_perm e).mem_iff.mp (List.mem_of_mem_filter hmemf)
      have hrela : rel a = true := List.of_mem_filter hmemf
      refine ⟨a, hmem, hrela, ?_, h⟩
      intro ep' hmem' hrel'
      have hmf' : ep' ∈ (sortEps e).filter rel :=
        List.mem_filter.mpr ⟨(sortEps_perm e).mem_iff.mpr hmem', hrel'⟩
      rcases getLast?_sorted_max hsorted hga ep' hmf' with rfl | hle
      · exact le_refl _
      · rcases List.prefix_or_prefix_of_prefix (hrel ep' hrel') (hrel a hrela) with hpq | hqp
        · exact hpq.length_le
        · by_cases heq : a.1 = ep'.1
          · rw [heq]
          · have hfalse := pathLe_strict hqp heq
            have hle' : pathLe ep'.1 a.1 = true := hle
            rw [hfalse] at hle'
            cases hle'
  · rintro ⟨ep, hmem, hrel1, hmax, hf⟩
    have hmf : ep ∈ (sortEps e).filter rel :=
      List.mem_filter.mpr ⟨(sortEps_perm e).mem_iff.mpr hmem, hrel1⟩
    have hne : (sortEps e).filter rel ≠ [] := List.ne_nil_of_mem hmf
    obtain ⟨a, hga⟩ := Option.isSome_iff_exists.mp (List.getLast?_isSome.mpr hne)
    rw [hga]
    simp only [Option.map_some', Option.getD_some]
    have hmemfa : a ∈ (sortEps e).filter rel := List.mem_of_mem_getLast? hga
    have hrela : rel a = true := List.of_mem_filter hmemfa
    have hmema : a ∈ e := (sortEps_perm e).mem_iff.mp (List.mem_of_mem_filter hmemfa)
    have hlen1 : a.1.length ≤ ep.1.length := hmax a hmema hrela
    rcases getLast?_sorted_max hsorted hga ep hmf with rfl | hle
    · exact hf
    · have hlen2 : ep.1.length ≤ a.1.length := by
        rcases List.prefix_or_prefix_of_prefix (hrel ep hrel1) (hrel a hrela) with hpq | hqp
        · exact hpq.length_le
        · by_cases heq : a.1 = ep.1
          · rw [heq]
          · have hfalse := pathLe_strict hqp heq
            have hle' : pathLe ep.1 a.1 = true := hle
            rw [hfalse] at hle'
            cases hle'
      have hkeyeq : a.1 = ep.1 := by
        have hpfx : a.1 <+: ep.1 :=
          List.prefix_of_prefix_length_le (hrel a hrela) (hrel ep hrel1) hlen1
        exact hpfx.eq_of_length (le_antisymm hlen1 hlen2)
      have haep : a = ep := by
        rcases a with ⟨a1, am⟩
        rcases ep with ⟨p1, pm⟩
        simp only at hkeyeq
        subst hkeyeq
        rw [nodupKeys_eq hnd hmema hmem]
      rw [haep]
      exact hf

/-- The relevance test of `path_is_mapped`'s fold: a prefix entry whose
mode is not `FAKE_MODE_DIR` overwrites the accumulator. -/
def relB (p : List String) (ep : List String × Int) : Bool :=
  hasPathPfx p ep.1 && decide (ep.2 ≠ FAKE_MODE_DIR)

/-- The value a relevant entry writes in `path_is_mapped`'s fold. -/
def condB (p : List String) (ep : List String × Int) : Bool :=
  if ep.2 = FAKE_MODE_SYMLINK then decide (p = ep.1) else decide (ep.2 ≠ FAKE_MODE_TMPFS)

/-- The relevance test of `path_parent_is_mapped`'s fold: a strict-prefix
entry whose mode is not `FAKE_MODE_DIR` overwrites the accumulator. -/
def relA (p : List String) (ep : List String × Int) : Bool :=
  hasPathPfx p ep.1 && decide (p ≠ ep.1) && decide (ep.2 ≠ FAKE_MODE_DIR)

/-- The value a relevant entry writes in `path_parent_is_mapped`'s fold. -/
def condA (ep : List String × Int) : Bool :=
  decide (ep.2 ≠ FAKE_MODE_TMPFS)

theorem pim_step_eq (p : List String) (m : Bool) (ep : List String × Int) :
    (if hasPathPfx p ep.1 then
       if ep.2 = FAKE_MODE_DIR then m
       else if ep.2 = FAKE_MODE_SYMLINK then decide (p = ep.1)
       else decide (ep.2 ≠ FAKE_MODE_TMPFS)
     else m) = if relB p ep then condB p ep else m := by
  by_cases h1 : hasPathPfx p ep.1 <;> by_cases h2 : ep.2 = FAKE_MODE_DIR <;>
    simp [relB, condB, h1, h2]

theorem ppim_step_eq (p : List String) (m : Bool) (ep : List String × Int) :
    (if hasPathPfx p ep.1 ∧ p ≠ ep.1 then
       if ep.2 = FAKE_MODE_DIR then m
       else decide (ep.2 ≠ FAKE_MODE_TMPFS)
     else m) = if relA p ep then condA ep else m := by
  by_cases h1 : hasPathPfx p ep.1 <;> by_cases h1' : p = ep.1 <;>
    by_cases h2 : ep.2 = FAKE_MODE_DIR <;> simp [relA, condA, h1, h1', h2]

theorem relB_eq_true (p : List String) (ep : List String × Int) :
    relB p ep = true ↔ ep.1 <+: p ∧ ep.2 ≠ FAKE_MODE_DIR := by
  simp [relB, hasPathPfx]

theorem condB_eq_true (p : List String) (ep : List String × Int) :
    condB p ep = true ↔
      (if ep.2 = FAKE_MODE_SYMLINK then p = ep.1 else ep.2 ≠ FAKE_MODE_TMPFS) := by
  unfold condB
  split <;> simp

theorem relA_eq_true (p : List String) (ep : List String × Int) :
    relA p ep = true ↔ (ep.1 <+: p ∧ p ≠ ep.1) ∧ ep.2 ≠ FAKE_MODE_DIR := by
  simp [relA, hasPathPfx, and_assoc]

theorem condA_eq_true (ep : List String × Int) :
    condA ep = true ↔ ep.2 ≠ FAKE_MODE_TMPFS := by
  simp [condA]

/-- The sample table refuting the existential readings of predicates A
and B: `/a` is read-only-bound while the deeper `/a/b` is a tmpfs. -/
def e2h : List (List String × Int) := [(["a"], 1), (["a", "b"], 0)]

/-- **C2, counterexample.**  For table `{/a ↦ ReadOnlyBind, /a/b ↦ Tmpfs}`
and candidate `/a/b/c`, the spec's predicate B (some ancestor-or-self
entry with mode other than Dir, Symlink counting only at equality) is
true via the `/a` entry, but `path_is_mapped` returns false: the deeper
`/a/b` Tmpfs entry overwrites the fold's accumulator last. -/
theorem c2_counterexample :
    specPredB e2h ["a", "b", "c"] = true ∧
      path_is_mapped (sortEps e2h) ["a", "b", "c"] = false := by
  decide

/-- **C2, amended.**  `path_is_mapped` over the sorted keys of a
duplicate-free table returns true iff the *deepest* entry whose path is a
prefix of the candidate and whose mode is not `Dir` exists and satisfies
the mode condition: for a `Symlink` entry, that its path equals the
candidate exactly; for any other mode, that it is not `Tmpfs`. -/
theorem c2_path_is_mapped_deepest (e : Exports) (p : List String)
    (hnd : (e.hash.map Prod.fst).Nodup) :
    path_is_mapped (sortEps e.hash) p = true ↔
      ∃ ep, ep ∈ e.hash ∧ (ep.1 <+: p ∧ ep.2 ≠ FAKE_MODE_DIR) ∧
        (∀ ep', ep' ∈ e.hash → ep'.1 <+: p → ep'.2 ≠ FAKE_MODE_DIR →
          ep'.1.length ≤ ep.1.length) ∧
        (if ep.2 = FAKE_MODE_SYMLINK then p = ep.1 else ep.2 ≠ FAKE_MODE_TMPFS) := by
  unfold path_is_mapped
  rw [mapped_fold_char e.hash p hnd _ (relB p) (condB p)
    (fun m ep => pim_step_eq p m ep)
    (fun ep h => ((relB_eq_true p ep).mp h).1)]
  constructor
  · rintro ⟨ep, hmem, hrel, hmax, hcond⟩
    refine ⟨ep, hmem, (relB_eq_true p ep).mp hrel, ?_, (condB_eq_true p ep).mp hcond⟩
    intro ep' hm' hp' hd'
    exact hmax ep' hm' ((relB_eq_true p ep').mpr ⟨hp', hd'⟩)
  · rintro ⟨ep, hmem, hrel, hmax, hcond⟩
    refine ⟨ep, hmem, (relB_eq_true p ep).mpr hrel, ?_, (condB_eq_true p ep).mpr hcond⟩
    intro ep' hm' hr'
    have h' := (relB_eq_true p ep').mp hr'
    exact hmax ep' hm' h'.1 h'.2

/-- Closed instance of the amended C2 statement at the sample table and
candidate `/a/b`, with the duplicate-free-keys hypothesis discharged. -/
theorem c2_path_is_mapped_deepest_witness :
    ((e2h.map Prod.fst).Nodup) ∧
      (path_is_mapped (sortEps e2h) ["a", "b"] = true ↔
        ∃ ep, ep ∈ e2h ∧ (ep.1 <+: ["a", "b"] ∧ ep.2 ≠ FAKE_MODE_DIR) ∧
          (∀ ep', ep' ∈ e2h → ep'.1 <+: ["a", "b"] → ep'.2 ≠ FAKE_MODE_DIR →
            ep'.1.length ≤ ep.1.length) ∧
          (if ep.2 = FAKE_MODE_SYMLINK then ["a", "b"] = ep.1
           else ep.2 ≠ FAKE_MODE_TMPFS)) :=
  ⟨by decide, c2_path_is_mapped_deepest ⟨e2h, 0⟩ ["a", "b"] (by decide)⟩

/-- **C3, counterexample.**  For table `{/a ↦ ReadOnlyBind, /a/b ↦ Tmpfs}`
and candidate `/a/b/c`, the spec's predicate A (some strict-prefix entry
with mode other than Dir and other than Tmpfs) is true via the `/a`
entry, but `path_parent_is_mapped` returns false: the deeper `/a/b`
Tmpfs entry overwrites the fold's accumulator last. -/
theorem c3_counterexample :
    specPredA e2h ["a", "b", "c"] = true ∧
      path_parent_is_mapped (sortEps e2h) ["a", "b", "c"] = false := by
  decide

/-- **C3, amended.**  `path_parent_is_mapped` over the sorted keys of a
duplicate-free table returns true iff the *deepest* entry whose path is a
strict prefix of the candidate and whose mode is not `Dir` exists and
has mode other than `Tmpfs`. -/
theorem c3_path_parent_is_mapped_deepest (e : Exports) (p : List String)
    (hnd : (e.hash.map Prod.fst).Nodup) :
    path_parent_is_mapped (sortEps e.hash) p = true ↔
      ∃ ep, ep ∈ e.hash ∧ ((ep.1 <+: p ∧ p ≠ ep.1) ∧ ep.2 ≠ FAKE_MODE_DIR) ∧
        (∀ ep', ep' ∈ e.hash → ep'.1 <+: p → p ≠ ep'.1 → ep'.2 ≠ FAKE_MODE_DIR →
          ep'.1.length ≤ ep.1.length) ∧
        ep.2 ≠ FAKE_MODE_TMPFS := by
  unfold path_parent_is_mapped
  rw [mapped_fold_char e.hash p hnd _ (relA p) condA
    (fun m ep => ppim_step_eq p m ep)
    (fun ep h => ((relA_eq_true p ep).mp h).1.1)]
  constructor
  · rintro ⟨ep, hmem, hrel, hmax, hcond⟩
    refine ⟨ep, hmem, (relA_eq_true p ep).mp hrel, ?_, (condA_eq_true ep).mp hcond⟩
    intro ep' hm' hp' hne' hd'
    exact hmax ep' hm' ((relA_eq_true p ep').mpr ⟨⟨hp', hne'⟩, hd'⟩)
  · rintro ⟨ep, hmem, hrel, hmax, hcond⟩
    refine ⟨ep, hmem, (relA_eq_true p ep).mpr hrel, ?_, (condA_eq_true ep).mpr hcond⟩
    intro ep' hm' hr'
    have h' := (relA_eq_true p ep').mp hr'
    exact hmax ep' hm' h'.1.1 h'.1.2 h'.2

/-- Closed instance of the amended C3 statement at the sample table and
candidate `/a/b/c`, with the duplicate-free-keys hypothesis discharged. -/
theorem c3_path_parent_is_mapped_deepest_witness :
    ((e2h.map Prod.fst).Nodup) ∧
      (path_parent_is_mapped (sortEps e2h) ["a", "b", "c"] = true ↔
        ∃ ep, ep ∈ e2h ∧
          ((ep.1 <+: ["a", "b", "c"] ∧ ["a", "b", "c"] ≠ ep.1) ∧
            ep.2 ≠ FAKE_MODE_DIR) ∧
          (∀ ep', ep' ∈ e2h → ep'.1 <+: ["a", "b", "c"] → ["a", "b", "c"] ≠ ep'.1 →
            ep'.2 ≠ FAKE_MODE_DIR → ep'.1.length ≤ ep.1.length) ∧
          ep.2 ≠ FAKE_MODE_TMPFS) :=
  ⟨by decide, c3_path_parent_is_mapped_deepest ⟨e2h, 0⟩ ["a", "b", "c"] (by decide)⟩

/-! ### C10: the root path is always visible -/

/-- **C10.**  `isVisible("/")` returns true for every export table and
host: canonicalizing `/` yields zero components, so the walk's loop body
never runs and no table entry or host path is consulted. -/
theorem c10_visible_root (fs : HostFS) (e : Exports) (fuel : Nat) (comps : List String)
    (h : canon comps = []) :
    isVisibleFuel fs e (fuel + 1) comps = some true := by
  rw [isVisibleFuel, h]
  rfl

/-- Closed instance of C10: the root path on a nonempty table. -/
theorem c10_visible_root_witness :
    canon [] = [] ∧
      isVisibleFuel fsAllDirs ⟨[(["q"], 1)], 0⟩ 1 [] = some true :=
  ⟨rfl, c10_visible_root fsAllDirs ⟨[(["q"], 1)], 0⟩ 0 [] rfl⟩

/-! ### C5: merge takes the maximum mode -/

/-- **C5.**  The mode constants are ordered
`Dir < Tmpfs < ReadOnlyBind < ReadWriteBind < Symlink`; re-exposing a
path already present with mode `mOld` under `mNew` stores exactly
`max mOld mNew` (so the stored mode never decreases), and concretely
exposing `/home` read-only then read-write, in either order, leaves a
single `/home ↦ ReadWriteBind` entry. -/
theorem c5_merge_mode_max :
    (FAKE_MODE_DIR < FAKE_MODE_TMPFS ∧
      FAKE_MODE_TMPFS < FLATPAK_FILESYSTEM_MODE_READ_ONLY ∧
      FLATPAK_FILESYSTEM_MODE_READ_ONLY < FLATPAK_FILESYSTEM_MODE_READ_WRITE ∧
      FLATPAK_FILESYSTEM_MODE_READ_WRITE < FAKE_MODE_SYMLINK) ∧
    (∀ (e : Exports) (p : List String) (mOld mNew : Int),
        lookupMode e.hash p = some mOld →
        lookupMode (do_export_path e p mNew).hash p = some (max mOld mNew) ∧
          mOld ≤ max mOld mNew) ∧
    runExpose fsHome FLATPAK_FILESYSTEM_MODE_READ_WRITE homePath
        (runExpose fsHome FLATPAK_FILESYSTEM_MODE_READ_ONLY homePath flatpak_exports_new) =
      ⟨[(["home"], FLATPAK_FILESYSTEM_MODE_READ_WRITE)], 0⟩ ∧
    runExpose fsHome FLATPAK_FILESYSTEM_MODE_READ_ONLY homePath
        (runExpose fsHome FLATPAK_FILESYSTEM_MODE_READ_WRITE homePath flatpak_exports_new) =
      ⟨[(["home"], FLATPAK_FILESYSTEM_MODE_READ_WRITE)], 0⟩ := by
  refine ⟨by decide, ?_, by decide, by decide⟩
  intro e p mOld mNew h
  constructor
  · rw [lookupMode_do_export_self, h]
  · exact le_max_left _ _

/-- Closed instance of C5's merge clause at a one-entry table, with the
lookup hypothesis discharged. -/
theorem c5_merge_mode_max_witness :
    lookupMode [(["p"], 1)] ["p"] = some 1 ∧
      (lookupMode (do_export_path ⟨[(["p"], 1)], 0⟩ ["p"] 2).hash ["p"] = some (max 1 2) ∧
        (1 : Int) ≤ max 1 2) :=
  ⟨by decide, c5_merge_mode_max.2.1 ⟨[(["p"], 1)], 0⟩ ["p"] 1 2 (by decide)⟩

/-! ### C6: failed exposures leave the table unchanged -/

theorem chaseStep_false_unchanged (fs : HostFS)
    (recur : Int → RawPath → Nat → Exports → Option (Bool × Exports))
    (mode : Int)
    (hrec : ∀ (p : RawPath) (level : Nat) (e e' : Exports),
      recur mode p level e = some (false, e') → e' = e) :
    ∀ (rest pre : List String) (level : Nat) (e e' : Exports),
      chaseStep fs recur mode pre rest level e = some (false, e') → e' = e := by
  intro rest
  induction rest with
  | nil =>
    intro pre level e e' h
    rw [chaseStep] at h
    split at h
    · split at h
      · exact (congrArg Prod.snd (Option.some.inj h)).symm
      · split at h
        · exact Option.noConfusion h
        · simp at h
        · rename_i e2 heq
          rw [← hrec _ _ _ _ heq]
          exact (congrArg Prod.snd (Option.some.inj h)).symm
    · simp at h
  | cons r rs ih =>
    intro pre level e e' h
    rw [chaseStep] at h
    split at h
    · split at h
      · exact (congrArg Prod.snd (Option.some.inj h)).symm
      · split at h
        · exact Option.noConfusion h
        · simp at h
        · rename_i e2 heq
          rw [← hrec _ _ _ _ heq]
          exact (congrArg Prod.snd (Option.some.inj h)).symm
    · exact ih (pre ++ [r]) level e e' h

theorem exposeFuel_false_unchanged (fs : HostFS) :
    ∀ (fuel : Nat) (mode : Int) (p : RawPath) (level : Nat) (e e' : Exports),
      exposeFuel fs fuel mode p level e = some (false, e') → e' = e := by
  intro fuel
  induction fuel with
  | zero =>
    intro mode p level e e' h
    exact Option.noConfusion h
  | succ n ih =>
    intro mode p level e e' h
    rw [exposeFuel] at h
    unfold exposeStep at h
    split at h
    · exact (congrArg Prod.snd (Option.some.inj h)).symm
    · split at h
      · exact (congrArg Prod.snd (Option.some.inj h)).symm
      · split at h
        · exact (congrArg Prod.snd (Option.some.inj h)).symm
        · split at h
          · split at h
            · exact (congrArg Prod.snd (Option.some.inj h)).symm
            · split at h
              · exact chaseStep_false_unchanged fs (exposeFuel fs n) mode
                  (fun q l a a' hh => ih mode q l a a' hh) [] [] level e e' h
              · rename_i x xs hc
                exact chaseStep_false_unchanged fs (exposeFuel fs n) mode
                  (fun q l a a' hh => ih mode q l a a' hh) xs [x] level e e' h
          · exact (congrArg Prod.snd (Option.some.inj h)).symm

/-- **C6.**  A failed exposure leaves the export table completely
unchanged, at every recursion level and for every failure cause; in
particular `exposePath(ReadWrite, "/usr/lib/foo")` fails (the path is
either missing, of a disallowed type, or under the `/usr` deny-list
prefix) and returns the table exactly as given. -/
theorem c6_failure_leaves_table_unchanged :
    (∀ (fs : HostFS) (fuel : Nat) (mode : Int) (p : RawPath) (level : Nat) (e e' : Exports),
        exposeFuel fs fuel mode p level e = some (false, e') → e' = e) ∧
    (∀ (fs : HostFS) (e : Exports),
        exposeFuel fs 42 FLATPAK_FILESYSTEM_MODE_READ_WRITE ⟨true, ["usr", "lib", "foo"]⟩ 0 e =
          some (false, e)) := by
  refine ⟨fun fs => exposeFuel_false_unchanged fs, ?_⟩
  intro fs e
  rw [show (42 : Nat) = 41 + 1 from rfl, exposeFuel]
  cases hls : fs.lstat (canon ["usr", "lib", "foo"]) with
  | none => simp [exposeStep, hls]
  | some t =>
    have hd : isDenied (canon ["usr", "lib", "foo"]) = true := by decide
    simp [exposeStep, hls, hd]

/-- Closed instance of C6's general clause: a relative path is rejected
with the table unchanged. -/
theorem c6_failure_leaves_table_unchanged_witness :
    exposeFuel fsHome 1 1 ⟨false, ["x"]⟩ 0 flatpak_exports_new =
        some (false, flatpak_exports_new) ∧
      flatpak_exports_new = flatpak_exports_new :=
  ⟨by decide,
   c6_failure_leaves_table_unchanged.1 fsHome 1 1 ⟨false, ["x"]⟩ 0
     flatpak_exports_new flatpak_exports_new (by decide)⟩

/-! ### C9: /tmp is never recorded with Symlink mode -/

theorem out_snd {b c : Bool} {x y : Exports} (h : some (b, x) = some (c, y)) : y = x := by
  cases h; rfl

theorem lookup_do_export_tmp (e : Exports) (path : List String) (m : Int)
    (hm : m ≠ FAKE_MODE_SYMLINK)
    (h : lookupMode e.hash ["tmp"] ≠ some FAKE_MODE_SYMLINK) :
    lookupMode (do_export_path e path m).hash ["tmp"] ≠ some FAKE_MODE_SYMLINK := by
  by_cases hp : ["tmp"] = path
  · subst hp
    rw [lookupMode_do_export_self]
    cases hold : lookupMode e.hash ["tmp"] with
    | none => simpa using hm
    | some old =>
      have hold' : old ≠ FAKE_MODE_SYMLINK := fun hh => h (by rw [hold, hh])
      rcases max_choice old m with hmax | hmax <;> simp [hmax, hold', hm]
  · rw [lookupMode_do_export_ne _ _ _ _ hp]
    exact h

theorem chaseStep_tmp_inv (fs : HostFS)
    (recur : Int → RawPath → Nat → Exports → Option (Bool × Exports))
    (mode : Int) (hm : mode ≠ FAKE_MODE_SYMLINK)
    (hrec : ∀ (p : RawPath) (level : Nat) (e : Exports) (b : Bool) (e' : Exports),
      recur mode p level e = some (b, e') →
      lookupMode e.hash ["tmp"] ≠ some FAKE_MODE_SYMLINK →
      lookupMode e'.hash ["tmp"] ≠ some FAKE_MODE_SYMLINK) :
    ∀ (rest pre : List String) (level : Nat) (e : Exports) (b : Bool) (e' : Exports),
      chaseStep fs recur mode pre rest level e = some (b, e') →
      lookupMode e.hash ["tmp"] ≠ some FAKE_MODE_SYMLINK →
      lookupMode e'.hash ["tmp"] ≠ some FAKE_MODE_SYMLINK := by
  intro rest
  induction rest with
  | nil =>
    intro pre level e b e' h hinv
    rw [chaseStep] at h
    split at h
    · rename_i hcond
      have hpre : ["tmp"] ≠ pre := by
        intro hh
        rw [← hh] at hcond
        exact absurd hcond.2 (by decide)
      split at h
      · rw [out_snd h]
        exact hinv
      · split at h
        · exact Option.noConfusion h
        · rename_i e2 heq
          rw [out_snd h]
          rw [lookupMode_do_export_ne _ _ _ _ hpre]
          exact hrec _ _ _ _ _ heq hinv
        · rename_i e2 heq
          rw [out_snd h]
          exact hrec _ _ _ _ _ heq hinv
    · rw [out_snd h]
      exact lookup_do_export_tmp e pre mode hm hinv
  | cons r rs ih =>
    intro pre level e b e' h hinv
    rw [chaseStep] at h
    split at h
    · rename_i hcond
      have hpre : ["tmp"] ≠ pre := by
        intro hh
        rw [← hh] at hcond
        exact absurd hcond.2 (by decide)
      split at h
      · rw [out_snd h]
        exact hinv
      · split at h
        · exact Option.noConfusion h
        · rename_i e2 heq
          rw [out_snd h]
          rw [lookupMode_do_export_ne _ _ _ _ hpre]
          exact hrec _ _ _ _ _ heq hinv
        · rename_i e2 heq
          rw [out_snd h]
          exact hrec _ _ _ _ _ heq hinv
    · exact ih (pre ++ [r]) level e b e' h hinv

theorem exposeFuel_tmp_inv (fs : HostFS) :
    ∀ (fuel : Nat) (mode : Int) (p : RawPath) (level : Nat) (e : Exports) (b : Bool)
      (e' : Exports), mode ≠ FAKE_MODE_SYMLINK →
      exposeFuel fs fuel mode p level e = some (b, e') →
      lookupMode e.hash ["tmp"] ≠ some FAKE_MODE_SYMLINK →
      lookupMode e'.hash ["tmp"] ≠ some FAKE_MODE_SYMLINK := by
  intro fuel
  induction fuel with
  | zero =>
    intro mode p level e b e' _ h
    exact Option.noConfusion h
  | succ n ih =>
    intro mode p level e b e' hm h hinv
    rw [exposeFuel] at h
    unfold exposeStep at h
    split at h
    · rw [out_snd h]; exact hinv
    · split at h
      · rw [out_snd h]; exact hinv
      · split at h
        · rw [out_snd h]; exact hinv
        · split at h
          · split at h
            · rw [out_snd h]; exact hinv
            · split at h
              · exact chaseStep_tmp_inv fs (exposeFuel fs n) mode hm
                  (fun q l a bb a' hh => ih mode q l a bb a' hm hh) [] [] level e b e' h hinv
              · rename_i x xs hc
                exact chaseStep_tmp_inv fs (exposeFuel fs n) mode hm
                  (fun q l a bb a' hh => ih mode q l a bb a' hm hh) xs [x] level e b e' h hinv
          · rw [out_snd h]; exact hinv

theorem runExpose_tmp_inv (fs : HostFS) (mode : Int) (p : RawPath) (e : Exports)
    (hm : mode ≠ FAKE_MODE_SYMLINK)
    (hinv : lookupMode e.hash ["tmp"] ≠ some FAKE_MODE_SYMLINK) :
    lookupMode (runExpose fs mode p e).hash ["tmp"] ≠ some FAKE_MODE_SYMLINK := by
  unfold runExpose
  rcases hr : exposeFuel fs 42 mode p 0 e with _ | ⟨b, e2⟩
  · exact hinv
  · exact exposeFuel_tmp_inv fs 42 mode p 0 e b e2 hm hr hinv

/-- One public exposure operation, as the spec's Exposer interface
offers them: `exposePath`, `exposeTmpfs`, `exposeDir`, `exposeOrHide`,
and the `host_fs` setter. -/
inductive ExposeOp where
  | expose (mode : Int) (path : RawPath)
  | tmpfs (path : RawPath)
  | dir (path : RawPath)
  | exposeOrHide (mode : Int) (path : RawPath)
  | homeExpose (mode : Int)
deriving DecidableEq, Repr

/-- The mode an operation requests (`Tmpfs` for the tmpfs entry point,
`Dir` for the dir entry point, the caller's mode otherwise). -/
def opReqMode : ExposeOp → Int
  | .expose m _ => m
  | .tmpfs _ => FAKE_MODE_TMPFS
  | .dir _ => FAKE_MODE_DIR
  | .exposeOrHide m _ => m
  | .homeExpose _ => FAKE_MODE_TMPFS

/-- Apply one exposure operation to the table. -/
def applyOp (fs : HostFS) (e : Exports) : ExposeOp → Exports
  | .expose m p => flatpak_exports_add_path_expose fs m p e
  | .tmpfs p => flatpak_exports_add_path_tmpfs fs p e
  | .dir p => flatpak_exports_add_path_dir fs p e
  | .exposeOrHide m p => flatpak_exports_add_path_expose_or_hide fs m p e
  | .homeExpose m => flatpak_exports_add_home_expose m e

/-- Apply a sequence of exposure operations, first to last. -/
def applyOps (fs : HostFS) : List ExposeOp → Exports → Exports
  | [], e => e
  | op :: t, e => applyOps fs t (applyOp fs e op)

/-- A host where `/tmp` is a symlink to the real directory `/realtmp`. -/
def fsTmp : HostFS :=
  ⟨fun p =>
    if p = [] then some FileType.directory
    else if p = ["tmp"] then some FileType.symlink
    else if p = ["realtmp"] then some FileType.directory
    else none,
   fun p => if p = ["tmp"] then some ["realtmp"] else none,
   fun _ => false⟩

/-- **C9.**  Across every sequence of public exposure operations (whose
requested modes are the public ones, never the internal `Symlink`
marker) and every host, the `/tmp` entry of the resulting table never
has `Symlink` mode: `never_export_as_symlink` guards every place the
chase records a symlink entry. -/
theorem c9_tmp_never_symlink (fs : HostFS) (ops : List ExposeOp)
    (h : ∀ op ∈ ops, opReqMode op ≠ FAKE_MODE_SYMLINK) :
    lookupMode (applyOps fs ops flatpak_exports_new).hash ["tmp"] ≠
      some FAKE_MODE_SYMLINK := by
  have key : ∀ (l : List ExposeOp) (e : Exports),
      (∀ op ∈ l, opReqMode op ≠ FAKE_MODE_SYMLINK) →
      lookupMode e.hash ["tmp"] ≠ some FAKE_MODE_SYMLINK →
      lookupMode (applyOps fs l e).hash ["tmp"] ≠ some FAKE_MODE_SYMLINK := by
    intro l
    induction l with
    | nil => intro e _ hinv; exact hinv
    | cons op t ih =>
      intro e hall hinv
      rw [applyOps]
      refine ih (applyOp fs e op) (fun o ho => hall o (List.mem_cons_of_mem op ho)) ?_
      have hop := hall op (List.mem_cons_self op t)
      cases op with
      | expose m p =>
        exact runExpose_tmp_inv fs m p e (by simpa [opReqMode] using hop) hinv
      | tmpfs p =>
        exact runExpose_tmp_inv fs FAKE_MODE_TMPFS p e (by decide) hinv
      | dir p =>
        exact runExpose_tmp_inv fs FAKE_MODE_DIR p e (by decide) hinv
      | exposeOrHide m p =>
        by_cases hm0 : m = 0
        · have happ : applyOp fs e (ExposeOp.exposeOrHide m p) =
              flatpak_exports_add_path_tmpfs fs p e := by
            simp [applyOp, flatpak_exports_add_path_expose_or_hide, hm0]
          rw [happ]
          exact runExpose_tmp_inv fs FAKE_MODE_TMPFS p e (by decide) hinv
        · have happ : applyOp fs e (ExposeOp.exposeOrHide m p) =
              flatpak_exports_add_path_expose fs m p e := by
            simp [applyOp, flatpak_exports_add_path_expose_or_hide, hm0]
          rw [happ]
          exact runExpose_tmp_inv fs m p e (by simpa [opReqMode] using hop) hinv
      | homeExpose m => exact hinv
  exact key ops flatpak_exports_new h (by decide)

/-- Closed instance of C9: exposing `/tmp` read-only on a host where
`/tmp` is a symlink still leaves its entry without `Symlink` mode. -/
theorem c9_tmp_never_symlink_witness :
    (∀ op ∈ [ExposeOp.expose 1 ⟨true, ["tmp"]⟩], opReqMode op ≠ FAKE_MODE_SYMLINK) ∧
      lookupMode (applyOps fsTmp [ExposeOp.expose 1 ⟨true, ["tmp"]⟩]
          flatpak_exports_new).hash ["tmp"] ≠ some FAKE_MODE_SYMLINK :=
  ⟨by decide, c9_tmp_never_symlink fsTmp [ExposeOp.expose 1 ⟨true, ["tmp"]⟩] (by decide)⟩


/-! ### C1: depth bound and termination -/

theorem chaseStep_isSome (fs : HostFS)
    (recur : Int → RawPath → Nat → Exports → Option (Bool × Exports))
    (mode : Int) (level : Nat)
    (hrec : ∀ (p : RawPath) (e : Exports), (recur mode p (level + 1) e).isSome) :
    ∀ (rest pre : List String) (e : Exports),
      (chaseStep fs recur mode pre rest level e).isSome := by
  intro rest
  induction rest with
  | nil =>
    intro pre e
    rw [chaseStep]
    split
    · split
      · simp
      · rename_i resolved hrl
        split
        · rename_i heq
          have hs := hrec ⟨true, resolved ++ []⟩ e
          rw [heq] at hs
          simp at hs
        · simp
        · simp
    · simp
  | cons r rs ih =>
    intro pre e
    rw [chaseStep]
    split
    · split
      · simp
      · rename_i resolved hrl
        split
        · rename_i heq
          have hs := hrec ⟨true, resolved ++ r :: rs⟩ e
          rw [heq] at hs
          simp at hs
        · simp
        · simp
    · exact ih (pre ++ [r]) e

theorem exposeFuel_isSome (fs : HostFS) :
    ∀ (fuel level : Nat), 41 - level < fuel →
      ∀ (mode : Int) (p : RawPath) (e : Exports),
        (exposeFuel fs fuel mode p level e).isSome := by
  intro fuel
  induction fuel with
  | zero =>
    intro level h
    exact absurd h (Nat.not_lt_zero _)
  | succ n ih =>
    intro level hlt mode p e
    rw [exposeFuel]
    unfold exposeStep
    by_cases h40 : level > 40
    · rw [if_pos h40]; simp
    · rw [if_neg h40]
      have hnext : ∀ (q : RawPath) (a : Exports),
          (exposeFuel fs n mode q (level + 1) a).isSome := by
        intro q a
        exact ih (level + 1) (by omega) mode q a
      split
      · simp
      · split
        · simp
        · split
          · split
            · simp
            · split
              · exact chaseStep_isSome fs (exposeFuel fs n) mode level hnext [] [] e
              · exact chaseStep_isSome fs (exposeFuel fs n) mode level hnext _ _ e
          · simp

/-- A host with the two-element symlink cycle `/x → /y → /x`. -/
def fsCyc : HostFS :=
  ⟨fun p =>
    if p = ["x"] ∨ p = ["y"] then some FileType.symlink
    else if p = [] then some FileType.directory
    else none,
   fun p =>
    if p = ["x"] then some ["y"]
    else if p = ["y"] then some ["x"]
    else none,
   fun _ => false⟩

/-- A table mapping both `/x` and `/y` read-only. -/
def eCyc : Exports := ⟨[(["x"], 1), (["y"], 1)], 0⟩

theorem visCyc_none :
    ∀ fuel : Nat,
      isVisibleFuel fsCyc eCyc fuel ["x"] = none ∧
        isVisibleFuel fsCyc eCyc fuel ["y"] = none := by
  intro fuel
  induction fuel with
  | zero => exact ⟨rfl, rfl⟩
  | succ n ih =>
    have hm1 : path_is_mapped (sortEps eCyc.hash) ["x"] = true := by decide
    have hm2 : path_is_mapped (sortEps eCyc.hash) ["y"] = true := by decide
    have hl1 : fsCyc.lstat ["x"] = some FileType.symlink := by decide
    have hl2 : fsCyc.lstat ["y"] = some FileType.symlink := by decide
    have hr1 : fsCyc.readlink ["x"] = some ["y"] := by decide
    have hr2 : fsCyc.readlink ["y"] = some ["x"] := by decide
    constructor
    · rw [isVisibleFuel, show canon ["x"] = ["x"] from rfl, visLoop]
      simp only [List.nil_append] at *
      simp [hm1, hl1, hr1, ih.2]
    · rw [isVisibleFuel, show canon ["y"] = ["y"] from rfl, visLoop]
      simp only [List.nil_append] at *
      simp [hm2, hl2, hr2, ih.1]

/-- **C1, counterexample.**  On the cyclic host `/x → /y → /x` with both
paths exported read-only, the visibility walk exhausts 100 units of
recursion fuel — far beyond the 42 frames a depth bound of 40 could ever
use — while the exposer, which does check its level, terminates on the
same cycle within fuel 42. -/
theorem c1_counterexample :
    isVisibleFuel fsCyc eCyc 100 ["x"] = none ∧
      (exposeFuel fsCyc 42 1 ⟨true, ["x"]⟩ 0 flatpak_exports_new).isSome = true := by
  decide

/-- **C1, amended.**  Only the Exposer's chase enforces the recursion
depth bound of 40: `_exports_path_expose` started at any level completes
within `41 - level` further self-recursive re-invocations, for every
host, table, mode and path; `flatpak_exports_path_is_visible` has no
depth bound, and on the cyclic host `/x → /y → /x` its self-recursion
never terminates, however much fuel it is given. -/
theorem c1_expose_bounded_visibility_unbounded :
    (∀ (fs : HostFS) (fuel level : Nat), 41 - level < fuel →
        ∀ (mode : Int) (p : RawPath) (e : Exports),
          (exposeFuel fs fuel mode p level e).isSome) ∧
    (∀ fuel : Nat, isVisibleFuel fsCyc eCyc fuel ["x"] = none) :=
  ⟨fun fs => exposeFuel_isSome fs, fun fuel => (visCyc_none fuel).1⟩

/-- Closed instance of C1's amended exposer clause: fuel 42 suffices at
level 0 on the cyclic host. -/
theorem c1_expose_bounded_visibility_unbounded_witness :
    41 - 0 < 42 ∧
      (exposeFuel fsCyc 42 1 ⟨true, ["x"]⟩ 0 flatpak_exports_new).isSome :=
  ⟨by decide,
   c1_expose_bounded_visibility_unbounded.1 fsCyc 42 0 (by decide) 1 ⟨true, ["x"]⟩
     flatpak_exports_new⟩

/-! ### C8: the symlink chase on /a -> /b -/

/-- Host for C8: `/a` is a symlink resolving to the real directory `/b`. -/
def fsAB : HostFS :=
  ⟨fun p =>
    if p = [] then some FileType.directory
    else if p = ["a"] then some FileType.symlink
    else if p = ["b"] then some FileType.directory
    else none,
   fun p => if p = ["a"] then some ["b"] else none,
   fun _ => false⟩

/-- The two entries C8 expects: `/b ↦ ReadOnlyBind`, `/a ↦ Symlink`. -/
def eAB : Exports :=
  ⟨[(["b"], FLATPAK_FILESYSTEM_MODE_READ_ONLY), (["a"], FAKE_MODE_SYMLINK)], 0⟩

/-- **C8.**  On any host where `/a` is a symlink resolving to `/b` and
`/b` is a real directory, `exposePath(ReadOnly, "/a")` succeeds and
records exactly the two entries `/a ↦ Symlink` and `/b ↦ ReadOnlyBind`;
plan generation then emits the `--symlink` action for `/a`, its target
expressed relative to `/a`'s parent directory by `make_relative`,
followed by the read-only bind of `/b`. -/
theorem c8_symlink_chase_records_two_entries (fs : HostFS) (fuel : Nat)
    (hla : fs.lstat ["a"] = some FileType.symlink)
    (hra : fs.readlink ["a"] = some ["b"])
    (hlb : fs.lstat ["b"] = some FileType.directory) :
    exposeFuel fs (fuel + 2) FLATPAK_FILESYSTEM_MODE_READ_ONLY ⟨true, ["a"]⟩ 0
        flatpak_exports_new = some (true, eAB) ∧
    flatpak_exports_append_bwrap_args fs eAB =
      [BwrapArg.symlink (make_relative (List.dropLast ["a"]) ["b"]) ["a"],
       BwrapArg.bind true ["b"] ["b"]] := by
  constructor
  · have hinner : exposeFuel fs (fuel + 1) FLATPAK_FILESYSTEM_MODE_READ_ONLY
        ⟨true, ["b"] ++ []⟩ (0 + 1) flatpak_exports_new =
        some (true, ⟨[(["b"], FLATPAK_FILESYSTEM_MODE_READ_ONLY)], 0⟩) := by
      rw [exposeFuel]
      unfold exposeStep
      rw [show canon (RawPath.mk true (["b"] ++ [])).comps = ["b"] from by decide]
      rw [if_neg (by decide : ¬ ((0 : Nat) + 1 > 40))]
      rw [if_neg (by decide : ¬ (RawPath.mk true (["b"] ++ [])).absolute = false)]
      rw [hlb]
      simp only [show isDenied ["b"] = false from by decide]
      simp
      rw [chaseStep]
      rw [if_neg (by simp [hlb] : ¬ (fs.lstat ["b"] = some FileType.symlink ∧
        never_export_as_symlink ["b"] = false))]
      decide
    rw [exposeFuel]
    unfold exposeStep
    rw [show canon (RawPath.mk true ["a"]).comps = ["a"] from by decide]
    rw [if_neg (by decide : ¬ ((0 : Nat) > 40))]
    rw [if_neg (by decide : ¬ (RawPath.mk true ["a"]).absolute = false)]
    rw [hla]
    simp only [show isDenied ["a"] = false from by decide]
    simp
    rw [chaseStep]
    rw [if_pos (show fs.lstat ["a"] = some FileType.symlink ∧
      never_export_as_symlink ["a"] = false from ⟨hla, by decide⟩)]
    simp only [hra, hinner]
    decide
  · have hs : sortEps [(["b"], (1 : Int)), (["a"], 2147483647)] =
        [(["a"], 2147483647), (["b"], 1)] := by decide
    have hp1 : path_parent_is_mapped
        [(["a"], (2147483647 : Int)), (["b"], 1)] ["a"] = false := by decide
    have hp2 : path_parent_is_mapped
        [(["a"], (2147483647 : Int)), (["b"], 1)] ["b"] = false := by decide
    simp [flatpak_exports_append_bwrap_args, hs, emitOne, hp1, hp2, hra, hostFsArgs,
      make_relative, eAB, FAKE_MODE_SYMLINK, FLATPAK_FILESYSTEM_MODE_READ_ONLY,
      FAKE_MODE_TMPFS, FAKE_MODE_DIR]

/-- Closed instance of C8 on the concrete host `fsAB`, with all three
host hypotheses discharged. -/
theorem c8_symlink_chase_records_two_entries_witness :
    (fsAB.lstat ["a"] = some FileType.symlink ∧
      fsAB.readlink ["a"] = some ["b"] ∧
      fsAB.lstat ["b"] = some FileType.directory) ∧
    (exposeFuel fsAB 2 FLATPAK_FILESYSTEM_MODE_READ_ONLY ⟨true, ["a"]⟩ 0
        flatpak_exports_new = some (true, eAB) ∧
      flatpak_exports_append_bwrap_args fsAB eAB =
        [BwrapArg.symlink (make_relative (List.dropLast ["a"]) ["b"]) ["a"],
         BwrapArg.bind true ["b"] ["b"]]) :=
  ⟨by decide,
   c8_symlink_chase_records_two_entries fsAB 0 (by decide) (by decide) (by decide)⟩

/-! ### C4: tmpfs versus ensure-dir in the mount plan -/

theorem of_tmpfs_mem_emitOne (fs : HostFS) (eps : List (List String × Int))
    (ep : List String × Int) (p : List String)
    (h : BwrapArg.tmpfs p ∈ emitOne fs eps ep) :
    ep.1 = p ∧ ep.2 = FAKE_MODE_TMPFS ∧ fs.lstat p = some FileType.directory ∧
      path_parent_is_mapped eps p = true := by
  unfold emitOne at h
  split at h
  · split at h
    · split at h <;> simp at h
    · simp at h
  · split at h
    · rename_i h1 h2
      split at h
      · rename_i hdir
        split at h
        · simp at h
        · rename_i hppm
          simp only [List.mem_singleton, BwrapArg.tmpfs.injEq] at h
          subst h
          refine ⟨rfl, h2, hdir, ?_⟩
          simpa using hppm
      · simp at h
    · split at h
      · split at h <;> simp at h
      · simp at h

theorem of_dir_mem_emitOne (fs : HostFS) (eps : List (List String × Int))
    (ep : List String × Int) (p : List String)
    (h : BwrapArg.dir p ∈ emitOne fs eps ep) :
    ep.1 = p ∧ fs.lstat p = some FileType.directory ∧
      ((ep.2 = FAKE_MODE_TMPFS ∧ path_parent_is_mapped eps p = false) ∨
        ep.2 = FAKE_MODE_DIR) := by
  unfold emitOne at h
  split at h
  · split at h
    · split at h <;> simp at h
    · simp at h
  · split at h
    · rename_i h1 h2
      split at h
      · rename_i hdir
        split at h
        · rename_i hppm
          simp only [List.mem_singleton, BwrapArg.dir.injEq] at h
          subst h
          exact ⟨rfl, hdir, Or.inl ⟨h2, hppm⟩⟩
        · simp at h
      · simp at h
    · split at h
      · rename_i h1 h2 h3
        split at h
        · rename_i hdir
          simp only [List.mem_singleton, BwrapArg.dir.injEq] at h
          subst h
          exact ⟨rfl, hdir, Or.inr h3⟩
        · simp at h
      · simp at h

theorem tmpfs_dir_not_mem_hostFsArgs (fs : HostFS) (e : Exports) (p : List String) :
    BwrapArg.tmpfs p ∉ hostFsArgs fs e ∧ BwrapArg.dir p ∉ hostFsArgs fs e := by
  unfold hostFsArgs
  split_ifs <;> simp

/-- **C4, counterexample.**  With the single entry `/a/b ↦ Tmpfs` and
`/a/b` a real host directory, the spec's predicate B holds at `/a/b`
(the entry itself has mode other than Dir), yet the generated plan
contains no dedicated Tmpfs action — it emits `EnsureDir(/a/b)` instead,
because the code consults the strict-ancestor test
`path_parent_is_mapped`, which is false here. -/
theorem c4_counterexample :
    specPredB [(["a", "b"], 0)] ["a", "b"] = true ∧
      flatpak_exports_append_bwrap_args
          ⟨fun q => if q = ["a", "b"] ∨ q = ["a"] ∨ q = [] then some FileType.directory
                    else none,
           fun _ => none, fun _ => false⟩
          ⟨[(["a", "b"], 0)], 0⟩ =
        [BwrapArg.dir ["a", "b"]] := by
  decide

/-- **C4, amended.**  A `Tmpfs` entry whose path is a real host
directory is emitted as a dedicated `--tmpfs` action exactly when the
strict-ancestor test `path_parent_is_mapped` (predicate A as
implemented) holds for its path, and as an `EnsureDir` (`--dir`) action
exactly otherwise — not according to the spec's predicate B. -/
theorem c4_tmpfs_action_iff_parent_mapped (fs : HostFS) (e : Exports) (p : List String)
    (hnd : (e.hash.map Prod.fst).Nodup)
    (hmem : (p, FAKE_MODE_TMPFS) ∈ e.hash)
    (hdir : fs.lstat p = some FileType.directory) :
    (BwrapArg.tmpfs p ∈ flatpak_exports_append_bwrap_args fs e ↔
      path_parent_is_mapped (sortEps e.hash) p = true) ∧
    (BwrapArg.dir p ∈ flatpak_exports_append_bwrap_args fs e ↔
      path_parent_is_mapped (sortEps e.hash) p = false) := by
  have hmems : (p, FAKE_MODE_TMPFS) ∈ sortEps e.hash :=
    (sortEps_perm e.hash).mem_iff.mpr hmem
  constructor
  · constructor
    · intro hm
      unfold flatpak_exports_append_bwrap_args at hm
      rcases List.mem_append.mp hm with hm1 | hm2
      · rcases List.mem_flatten.mp hm1 with ⟨l, hl, hml⟩
        rcases List.mem_map.mp hl with ⟨ep, hep, rfl⟩
        exact (of_tmpfs_mem_emitOne fs _ ep p hml).2.2.2
      · exact absurd hm2 (tmpfs_dir_not_mem_hostFsArgs fs e p).1
    · intro hppm
      unfold flatpak_exports_append_bwrap_args
      refine List.mem_append.mpr (Or.inl ?_)
      refine List.mem_flatten.mpr ⟨emitOne fs (sortEps e.hash) (p, FAKE_MODE_TMPFS), ?_, ?_⟩
      · exact List.mem_map.mpr ⟨(p, FAKE_MODE_TMPFS), hmems, rfl⟩
      · simp [emitOne, hdir, hppm, FAKE_MODE_TMPFS, FAKE_MODE_SYMLINK]
  · constructor
    · intro hm
      unfold flatpak_exports_append_bwrap_args at hm
      rcases List.mem_append.mp hm with hm1 | hm2
      · rcases List.mem_flatten.mp hm1 with ⟨l, hl, hml⟩
        rcases List.mem_map.mp hl with ⟨ep, hep, rfl⟩
        have hd := of_dir_mem_emitOne fs _ ep p hml
        have hepmem : ep ∈ e.hash := (sortEps_perm e.hash).mem_iff.mp hep
        have hkey : ep.2 = FAKE_MODE_TMPFS := by
          have : (p, ep.2) ∈ e.hash := by
            have h1 := hd.1
            rcases ep with ⟨q, m⟩
            simp only at h1
            subst h1
            exact hepmem
          exact nodupKeys_eq hnd this hmem
        rcases hd.2.2 with ⟨_, hppm⟩ | hdirm
        · exact hppm
        · rw [hkey] at hdirm
          exact absurd hdirm (by decide)
      · exact absurd hm2 (tmpfs_dir_not_mem_hostFsArgs fs e p).2
    · intro hppm
      unfold flatpak_exports_append_bwrap_args
      refine List.mem_append.mpr (Or.inl ?_)
      refine List.mem_flatten.mpr ⟨emitOne fs (sortEps e.hash) (p, FAKE_MODE_TMPFS), ?_, ?_⟩
      · exact List.mem_map.mpr ⟨(p, FAKE_MODE_TMPFS), hmems, rfl⟩
      · simp [emitOne, hdir, hppm, FAKE_MODE_TMPFS, FAKE_MODE_SYMLINK]

/-- Closed instance of the amended C4 at the table
`{/a ↦ ReadOnlyBind, /a/b ↦ Tmpfs}`, whose `/a/b` entry does get a
dedicated tmpfs action because `/a` is a mapped strict ancestor. -/
theorem c4_tmpfs_action_iff_parent_mapped_witness :
    (((⟨[(["a"], 1), (["a", "b"], 0)], 0⟩ : Exports).hash.map Prod.fst).Nodup ∧
      (["a", "b"], FAKE_MODE_TMPFS) ∈ (⟨[(["a"], 1), (["a", "b"], 0)], 0⟩ : Exports).hash ∧
      fsAllDirs.lstat ["a", "b"] = some FileType.directory) ∧
    ((BwrapArg.tmpfs ["a", "b"] ∈
        flatpak_exports_append_bwrap_args fsAllDirs ⟨[(["a"], 1), (["a", "b"], 0)], 0⟩ ↔
      path_parent_is_mapped (sortEps [(["a"], 1), (["a", "b"], 0)]) ["a", "b"] = true) ∧
    (BwrapArg.dir ["a", "b"] ∈
        flatpak_exports_append_bwrap_args fsAllDirs ⟨[(["a"], 1), (["a", "b"], 0)], 0⟩ ↔
      path_parent_is_mapped (sortEps [(["a"], 1), (["a", "b"], 0)]) ["a", "b"] = false)) :=
  ⟨⟨by decide, by decide, by decide⟩,
   c4_tmpfs_action_iff_parent_mapped fsAllDirs ⟨[(["a"], 1), (["a", "b"], 0)], 0⟩
     ["a", "b"] (by decide) (by decide) (by decide)⟩

/-! ### C7: visibility of recorded exports -/

theorem lookupMode_mem {h : List (List String × Int)} {p : List String} {m : Int}
    (hl : lookupMode h p = some m) : (p, m) ∈ h := by
  unfold lookupMode at hl
  cases hf : h.find? (fun ep => ep.1 == p) with
  | none => rw [hf] at hl; cases hl
  | some ep0 =>
    rw [hf] at hl
    simp only [Option.map_some', Option.some.injEq] at hl
    have hmem := List.mem_of_find?_eq_some hf
    have hp := List.find?_some hf
    rcases ep0 with ⟨q, m0⟩
    simp only [beq_iff_eq] at hp
    simp only at hl
    subst hp
    subst hl
    exact hmem

theorem pim_true_of_entry (e : Exports) (p : List String) (m : Int)
    (hnd : (e.hash.map Prod.fst).Nodup)
    (hmem : (p, m) ∈ e.hash) (hm1 : m ≠ FAKE_MODE_DIR) (hm0 : m ≠ FAKE_MODE_TMPFS) :
    path_is_mapped (sortEps e.hash) p = true := by
  unfold path_is_mapped
  rw [mapped_fold_char e.hash p hnd _ (relB p) (condB p)
    (fun mm ep => pim_step_eq p mm ep)
    (fun ep h => ((relB_eq_true p ep).mp h).1)]
  refine ⟨(p, m), hmem, (relB_eq_true p (p, m)).mpr ⟨List.prefix_refl p, hm1⟩, ?_, ?_⟩
  · intro ep' _ hrel'
    exact (((relB_eq_true p ep').mp hrel').1).length_le
  · rw [condB_eq_true]
    by_cases hms : m = FAKE_MODE_SYMLINK <;> simp [hms, hm0]

theorem pim_false_of_cov (e : Exports) (p pre : List String)
    (hpre : pre <+: p)
    (hcov : ∀ ep ∈ e.hash, ep.1 <+: p → ep.2 = FAKE_MODE_TMPFS ∧ ep.1 ≠ p) :
    path_is_mapped (sortEps e.hash) pre = false := by
  unfold path_is_mapped
  rw [foldl_overwrite _ (relB pre) (condB pre) (fun mm ep => pim_step_eq pre mm ep)]
  cases hga : ((sortEps e.hash).filter (relB pre)).getLast? with
  | none => rfl
  | some a =>
    simp only [Option.map_some', Option.getD_some]
    have hmemf := List.mem_of_mem_getLast? hga
    have hrela : relB pre a = true := List.of_mem_filter hmemf
    have hmema : a ∈ e.hash :=
      (sortEps_perm e.hash).mem_iff.mp (List.mem_of_mem_filter hmemf)
    have hpfx : a.1 <+: p := ((relB_eq_true pre a).mp hrela).1.trans hpre
    have htm : a.2 = FAKE_MODE_TMPFS := (hcov a hmema hpfx).1
    unfold condB
    rw [htm, if_neg (by decide : ¬ FAKE_MODE_TMPFS = FAKE_MODE_SYMLINK)]
    decide

theorem visLoop_cons (fs : HostFS) (e : Exports) (recur : List String → Option Bool)
    (built : List String) (part : String) (rest : List String) :
    visLoop fs e recur built (part :: rest) =
      if path_is_mapped (sortEps e.hash) (built ++ [part]) then
        match fs.lstat (built ++ [part]) with
        | none => some false
        | some t =>
          if t = FileType.symlink then
            match fs.readlink (built ++ [part]) with
            | none => some false
            | some resolved => recur (resolved ++ rest)
          else visLoop fs e recur (built ++ [part]) rest
      else
        match rest with
        | [] => some false
        | _ :: _ => visLoop fs e recur (built ++ [part]) rest := rfl

theorem visLoop_good (fs : HostFS) (e : Exports) (recur : List String → Option Bool)
    (p : List String)
    (hmapped : path_is_mapped (sortEps e.hash) p = true)
    (hhost : ∀ q ∈ p.inits, q ≠ [] →
      (fs.lstat q).isSome ∧ fs.lstat q ≠ some FileType.symlink) :
    ∀ (rest built : List String), built ++ rest = p → rest ≠ [] →
      visLoop fs e recur built rest = some true := by
  intro rest
  induction rest with
  | nil => intro built _ hne; exact absurd rfl hne
  | cons r rs ih =>
    intro built hsplit _
    rw [visLoop_cons]
    have hprefix : (built ++ [r]) <+: p := by
      rw [← hsplit]
      exact ⟨rs, by simp⟩
    have hin : (built ++ [r]) ∈ p.inits := (List.mem_inits _ _).mpr hprefix
    have hne2 : built ++ [r] ≠ [] := by simp
    obtain ⟨hsome, hnsym⟩ := hhost (built ++ [r]) hin hne2
    obtain ⟨t, ht⟩ := Option.isSome_iff_exists.mp hsome
    have htname : t ≠ FileType.symlink := fun hh => hnsym (by rw [ht, hh])
    cases rs with
    | nil =>
      have hp : built ++ [r] = p := by simpa using hsplit
      rw [hp] at ht
      rw [hp, if_pos hmapped]
      simp only [ht]
      rw [if_neg htname]
      rfl
    | cons r2 rs2 =>
      by_cases hm : path_is_mapped (sortEps e.hash) (built ++ [r]) = true
      · rw [if_pos hm]
        simp only [ht]
        rw [if_neg htname]
        exact ih (built ++ [r]) (by simpa using hsplit) (by simp)
      · rw [if_neg hm]
        exact ih (built ++ [r]) (by simpa using hsplit) (by simp)

theorem visLoop_unmapped (fs : HostFS) (e : Exports) (recur : List String → Option Bool)
    (p : List String)
    (hnm : ∀ pre, pre <+: p → path_is_mapped (sortEps e.hash) pre = false) :
    ∀ (rest built : List String), built ++ rest = p → rest ≠ [] →
      visLoop fs e recur built rest = some false := by
  intro rest
  induction rest with
  | nil => intro built _ hne; exact absurd rfl hne
  | cons r rs ih =>
    intro built hsplit _
    rw [visLoop_cons]
    have hprefix : (built ++ [r]) <+: p := by
      rw [← hsplit]
      exact ⟨rs, by simp⟩
    rw [if_neg (by simp [hnm (built ++ [r]) hprefix])]
    cases rs with
    | nil => rfl
    | cons r2 rs2 =>
      exact ih (built ++ [r]) (by simpa using hsplit) (by simp)

/-- **C7, counterexample.**  With host `/tmp` a symlink to `/realtmp`
(a real directory), `exposePath(ReadOnly, "/tmp")` populates the table
with the single entry `/tmp ↦ ReadOnlyBind` — the `never_export_as_symlink`
exception suppresses the symlink treatment — yet on that very same
host state `isVisible("/tmp")` returns false: the walk chases the
symlink to `/realtmp`, which no entry maps. -/
theorem c7_counterexample :
    runExpose fsTmp 1 ⟨true, ["tmp"]⟩ flatpak_exports_new = ⟨[(["tmp"], 1)], 0⟩ ∧
      lookupMode [(["tmp"], (1 : Int))] ["tmp"] = some 1 ∧
      (1 : Int) ≠ FAKE_MODE_TMPFS ∧ (1 : Int) ≠ FAKE_MODE_DIR ∧
      isVisibleFuel fsTmp ⟨[(["tmp"], 1)], 0⟩ 100 ["tmp"] = some false := by
  decide

/-- **C7, amended.**  (1) A path recorded with mode other than
`Tmpfs`/`Dir` is visible provided additionally that every nonempty
prefix of it exists on the host and none of them is a symlink — the
host-unchanged assumption alone is not enough, because the `/tmp`
exception can record a bind entry for a path that still is a symlink on
the host.  (2) A path covered only by strict-ancestor Tmpfs entries,
with no deeper export of its own, is reported not visible. -/
theorem c7_visibility_of_recorded_exports :
    (∀ (fs : HostFS) (e : Exports) (p : List String) (m : Int) (fuel : Nat),
        canon p = p → (e.hash.map Prod.fst).Nodup →
        lookupMode e.hash p = some m → m ≠ FAKE_MODE_TMPFS → m ≠ FAKE_MODE_DIR →
        (∀ q ∈ p.inits, q ≠ [] →
          (fs.lstat q).isSome ∧ fs.lstat q ≠ some FileType.symlink) →
        isVisibleFuel fs e (fuel + 1) p = some true) ∧
    (∀ (fs : HostFS) (e : Exports) (p : List String) (fuel : Nat),
        canon p = p → p ≠ [] →
        (∃ q, (q, FAKE_MODE_TMPFS) ∈ e.hash ∧ q <+: p ∧ q ≠ p) →
        (∀ ep ∈ e.hash, ep.1 <+: p → ep.2 = FAKE_MODE_TMPFS ∧ ep.1 ≠ p) →
        isVisibleFuel fs e (fuel + 1) p = some false) := by
  constructor
  · intro fs e p m fuel hc hnd hlook hm0 hm1 hhost
    rw [isVisibleFuel, hc]
    cases hp : p with
    | nil => rfl
    | cons r rs =>
      have hmapped : path_is_mapped (sortEps e.hash) p = true :=
        pim_true_of_entry e p m hnd (lookupMode_mem hlook) hm1 hm0
      rw [← hp]
      rw [hp] at hmapped hhost ⊢
      exact visLoop_good fs e (isVisibleFuel fs e fuel) (r :: rs)
        hmapped hhost (r :: rs) [] rfl (by simp)
  · intro fs e p fuel hc hne _hanc hcov
    rw [isVisibleFuel, hc]
    cases hp : p with
    | nil => exact absurd hp hne
    | cons r rs =>
      have hnm : ∀ pre, pre <+: (r :: rs) → path_is_mapped (sortEps e.hash) pre = false := by
        intro pre hpre
        exact pim_false_of_cov e p pre (hp ▸ hpre) hcov
      have hcov' : ∀ ep ∈ e.hash, ep.1 <+: (r :: rs) →
          ep.2 = FAKE_MODE_TMPFS ∧ ep.1 ≠ (r :: rs) := by
        intro ep hmem hpfx
        have := hcov ep hmem (hp ▸ hpfx)
        exact ⟨this.1, hp ▸ this.2⟩
      exact visLoop_unmapped fs e (isVisibleFuel fs e fuel) (r :: rs)
        hnm (r :: rs) [] rfl (by simp)

/-- Closed instance of amended C7's first clause: `/home` exposed
read-write on a symlink-free host is visible. -/
theorem c7_visibility_of_recorded_exports_witness :
    (canon ["home"] = ["home"] ∧
      (((⟨[(["home"], 2)], 0⟩ : Exports).hash.map Prod.fst).Nodup) ∧
      lookupMode (⟨[(["home"], 2)], 0⟩ : Exports).hash ["home"] = some 2 ∧
      (2 : Int) ≠ FAKE_MODE_TMPFS ∧ (2 : Int) ≠ FAKE_MODE_DIR ∧
      (∀ q ∈ List.inits ["home"], q ≠ [] →
        (fsHome.lstat q).isSome ∧ fsHome.lstat q ≠ some FileType.symlink)) ∧
    isVisibleFuel fsHome ⟨[(["home"], 2)], 0⟩ 1 ["home"] = some true :=
  ⟨⟨by decide, by decide, by decide, by decide, by decide, by decide⟩,
   c7_visibility_of_recorded_exports.1 fsHome ⟨[(["home"], 2)], 0⟩ ["home"] 2 0
     (by decide) (by decide) (by decide) (by decide) (by decide) (by decide)⟩
